import Mathlib

/-!
# Verification of `simple_image_labeler.py`

A shallow embedding of the core logic of the simple image labeler:
label discovery with keyboard-shortcut assignment (`load_labels`),
image-queue construction (`load_image_filenames`), and the session
controller (`change_img`, `on_btn_click`, `undo_click`), together with
theorems settling the testable properties of its specification.

Conventions of the embedding:
* The filesystem is a list of existing file paths (`os.path.isfile` is
  membership, `os.rename src dst` removes `src` and inserts `dst`).
* The log file `image_labels.csv` is the list of its rows.
* Python exceptions are modelled with `Option` / `Except`; an
  `Except.error` carries the state at the moment the exception is
  raised (mutations already performed persist, as they do in Python).
* `datetime.now()` is an opaque string parameter threaded to the
  functions that use it.
-/

namespace ImageLabeler

/-- Python `str.split(sep)` for a non-empty separator, on character
lists, with explicit fuel.  Scans left to right; whenever `sep` occurs
at the current position the accumulated chunk is emitted and the scan
resumes after the separator (leftmost, non-overlapping matches, exactly
Python's semantics).  `fuel = cs.length` suffices because every step
consumes at least one character when `sep` is non-empty; all call sites
pass a non-empty `sep` (Python raises `ValueError` on an empty
separator before this routine would run). -/
def pySplitGo (sep : List Char) : Nat → List Char → List Char → List (List Char)
  | _, acc, [] => [acc.reverse]
  | 0, acc, cs => [acc.reverse ++ cs]
  | fuel + 1, acc, c :: cs =>
    if sep.isPrefixOf (c :: cs) then
      acc.reverse :: pySplitGo sep fuel [] ((c :: cs).drop sep.length)
    else
      pySplitGo sep fuel (c :: acc) cs

/-- Python `s.split(sep)` (non-empty `sep`). -/
def pySplit (cs sep : List Char) : List (List Char) :=
  pySplitGo sep cs.length [] cs

/-- Index of the last occurrence of `c` in `cs`, or `-1` if absent —
the value Python's `str.rfind` returns inside `os.path.splitext`. -/
def lastIdxOf (cs : List Char) (c : Char) : Int :=
  cs.enum.foldl (fun acc p => if p.2 = c then (p.1 : Int) else acc) (-1)

/-- `os.path.splitext(p)[0]` (posix): cut at the last dot, provided that
dot lies after the last path separator and the base name does not
consist solely of leading dots up to it. -/
def splitextFst (cs : List Char) : List Char :=
  let sepIdx := lastIdxOf cs '/'
  let dotIdx := lastIdxOf cs '.'
  if sepIdx < dotIdx then
    if ((cs.drop (sepIdx + 1).toNat).take (dotIdx.toNat - (sepIdx + 1).toNat)).all
        (fun d => d = '.') then
      cs
    else
      cs.take dotIdx.toNat
  else
    cs

/-- Python `str.endswith` (a plain suffix test). -/
def pyEndsWith (s suffix : String) : Bool :=
  suffix.toList.isSuffixOf s.toList

/-- Python string comparison: lexicographic on Unicode code points. -/
def charListLe : List Char → List Char → Bool
  | [], _ => true
  | _ :: _, [] => false
  | a :: as, b :: bs =>
    if a < b then true
    else if b < a then false
    else charListLe as bs

/-- Insert into a sorted list (stable, keeps the new element after
equal ones it does not precede). -/
def insertSorted (x : String) : List String → List String
  | [] => [x]
  | y :: ys => if charListLe x.toList y.toList then x :: y :: ys else y :: insertSorted x ys

/-- Python `list.sort()` on strings.  Timsort is a stable sort over a
total order; on strings (where equal elements are identical) any
sorting algorithm produces the same list, so insertion sort is an
extensionally faithful model. -/
def pySort (l : List String) : List String :=
  l.foldr insertSorted []

/-- The serial / iteration / base-name extraction performed by
`on_btn_click` (lines 164–167 of the source):
`parts = f.split("_"); serial = parts[0]; itr = parts[1].split(".")[0];`
`fname = os.path.splitext(f.split(itr)[1])[0]`.
`none` models the exception Python raises: `IndexError` on `parts[1]`
when the filename holds no underscore, `ValueError` when `itr` is
empty, `IndexError` on `f.split(itr)[1]` otherwise failing. -/
def parseFilename (f : String) : Option (String × String × String) :=
  match pySplit f.toList ['_'] with
  | p0 :: p1 :: _ =>
    let itr := (pySplit p1 ['.']).headD []
    if itr = [] then none
    else
      match (pySplit f.toList itr)[1]? with
      | none => none
      | some rest => some (p0.asString, itr.asString, (splitextFst rest).asString)
  | _ => none

/-- The two keyboard-shortcut dictionaries built by `load_labels`:
`keyboard_shortcuts_indexed_by_letter` (letter → label index) and
`keyboard_shortcuts_indexed_by_idx` (label index → position of the
shortcut letter within the label).  Python dicts with fresh keys are
modelled as association lists extended on the right. -/
structure Shortcuts where
  byLetter : List (Char × Nat)
  byIdx : List (Nat × Nat)
deriving DecidableEq

/-- The inner loop of `load_labels`: scan the letters of a label
(`enumerate(label)`, position counter `k`) and return the position and
value of the first letter that is not yet a key of
`keyboard_shortcuts_indexed_by_letter`. -/
def firstFree (byLetter : List (Char × Nat)) : List Char → Nat → Option (Nat × Char)
  | [], _ => none
  | c :: cs, k =>
    if (byLetter.lookup c).isSome then firstFree byLetter cs (k + 1)
    else some (k, c)

/-- One iteration of the `for i, label in enumerate(labels)` loop of
`load_labels`: record the first free letter of `label` (if any) in both
dictionaries; a label whose letters are all taken adds nothing. -/
def addLabel (st : Shortcuts) (i : Nat) (label : String) : Shortcuts :=
  match firstFree st.byLetter label.toList 0 with
  | some (k, c) => ⟨st.byLetter ++ [(c, i)], st.byIdx ++ [(i, k)]⟩
  | none => st

/-- `for i, label in enumerate(labels)` starting at index `i0`. -/
def foldFrom (i0 : Nat) (st : Shortcuts) : List String → Shortcuts
  | [] => st
  | l :: ls => foldFrom (i0 + 1) (addLabel st i0 l) ls

/-- `load_labels` (lines 47–59): sort the sub-directory names, then
assign each one the first letter of its name not already taken.
Returns the sorted label list together with the shortcut tables (which
the source keeps in globals). -/
def load_labels (dirnames : List String) : List String × Shortcuts :=
  let labels := pySort dirnames
  (labels, foldFrom 0 ⟨[], []⟩ labels)

/-- Observation function: the shortcut letter the loaded tables give to
the label at index `i` (look up the recorded letter position in the
label's text). -/
def codeAssign (labels : List String) (st : Shortcuts) : List (Option Char) :=
  (List.range labels.length).map fun i =>
    (st.byIdx.lookup i).bind fun k => (labels[i]?).bind fun l => l.toList[k]?

/-- Recursive form of `codeAssign`: the shortcut letters of the labels
`ls` occupying indices `i0, i0+1, ...` under the tables `st`. -/
def extractAssign (st : Shortcuts) (i0 : Nat) : List String → List (Option Char)
  | [] => []
  | l :: ls => ((st.byIdx.lookup i0).bind fun k => l.toList[k]?) :: extractAssign st (i0 + 1) ls

/-- Whether each of the labels `ls`, occupying indices `i0, i0+1, ...`,
received a shortcut entry at all in `keyboard_shortcuts_indexed_by_idx`. -/
def extractHas (st : Shortcuts) (i0 : Nat) : List String → List Bool
  | [] => []
  | _ :: ls => (st.byIdx.lookup i0).isSome :: extractHas st (i0 + 1) ls

/-- Observation function: the shortcut letter of a label given by name,
resolved through the sorted position the code assigns it. -/
def shortcutOfLabel (dirnames : List String) (name : String) : Option Char :=
  let p := load_labels dirnames
  let i := p.1.indexOf name
  (p.2.byIdx.lookup i).bind fun k => (p.1[i]?).bind fun l => l.toList[k]?

/-- Spec-side assignment rule, stated from the specification's words:
"For each label in sorted order, scans its characters left-to-right;
the first character not already claimed becomes its shortcut; ... If a
label exhausts all characters without finding a free one, it receives
no shortcut."  `claimed` is the list of letters taken by earlier
labels. -/
def specAssign (claimed : List Char) : List String → List (Option Char)
  | [] => []
  | l :: ls =>
    match l.toList.find? (fun d => !(claimed.contains d)) with
    | some c => some c :: specAssign (claimed ++ [c]) ls
    | none => none :: specAssign claimed ls

/-- The image-file extension filter of `load_image_filenames`
(line 68), case-sensitive. -/
def isImageFile (pic : String) : Bool :=
  pyEndsWith pic ".png" || pyEndsWith pic ".jpg" || pyEndsWith pic ".jpeg"

/-- Swap the entries at positions `i` and `j` of a list
(`x[i], x[j] = x[j], x[i]`). -/
def listSwap (l : List String) (i j : Nat) : List String :=
  match l[i]?, l[j]? with
  | some a, some b => (l.set i b).set j a
  | _, _ => l

/-- CPython's `random.shuffle`: `for i in reversed(range(1, len(x))):
j = randbelow(i + 1); swap x[i] x[j]`.  The random source `rb` is an
arbitrary function of the exclusive bound, reduced modulo that bound
exactly as `_randbelow`'s contract guarantees. -/
def pyShuffleGo (rb : Nat → Nat) : Nat → List String → List String
  | 0, l => l
  | i + 1, l => pyShuffleGo rb i (listSwap l (i + 1) (rb (i + 2) % (i + 2)))

/-- `random.shuffle(f)`. -/
def pyShuffle (rb : Nat → Nat) (l : List String) : List String :=
  pyShuffleGo rb (l.length - 1) l

/-- `load_image_filenames` (lines 62–71): `next(os.walk(path))` yields
`(dirpath, dirnames, filenames)`; only `filenames` (immediate files,
never sub-directories) is kept, filtered to the accepted extensions and
shuffled once.  `dirnames` is taken as an argument to record that the
sub-directory names of the very same listing are ignored. -/
def load_image_filenames (rb : Nat → Nat) (dirnames filenames : List String) : List String :=
  pyShuffle rb (filenames.filter isImageFile)

/-- `os.path.join` for a directory prefixed to a relative name (the
only shape the source uses; `path` carries no trailing slash). -/
def joinPath (a b : String) : String :=
  a ++ "/" ++ b

/-- Python list indexing with an `int` index: non-negative indices from
the front, negative indices from the back, `none` = `IndexError`. -/
def pyGet (l : List String) (i : Int) : Option String :=
  if 0 ≤ i then l[i.toNat]?
  else if 0 ≤ (l.length : Int) + i then l[((l.length : Int) + i).toNat]?
  else none

/-- The mutable session state of the program: the globals `img_idx` and
`undo`, the filesystem (set of existing file paths), the rows of
`image_labels.csv`, and whether `window.quit()` has been called
(`finished`, together with the count shown by the completion dialog). -/
structure LabelerState where
  imgIdx : Int
  undoRec : List String
  fs : List String
  log : List String
  finished : Bool
  completionMsg : Option Int
deriving DecidableEq

/-- The startup-time immutable data: `path`, the sorted `labels`, the
shuffled `image_filenames`, and the shortcut tables. -/
structure Config where
  path : String
  labels : List String
  imageFilenames : List String
  shortcuts : Shortcuts

/-- `change_img` (lines 101–116): move `img_idx` by one; when the new
index reaches the end of the queue, show the completion dialog (whose
count is the new `img_idx`) and quit the window.  The image loading and
rendering of the non-terminal branch touches no session state and is
not modelled. -/
def change_img (cfg : Config) (decrement : Bool) (s : LabelerState) : LabelerState :=
  let idx := if decrement then s.imgIdx - 1 else s.imgIdx + 1
  if (cfg.imageFilenames.length : Int) ≤ idx then
    { s with imgIdx := idx, finished := true, completionMsg := some idx }
  else
    { s with imgIdx := idx }

/-- `on_btn_click` (lines 145–176), executed in source order:
read `labels[btn_idx]` and `image_filenames[img_idx]` (an out-of-range
index raises before any mutation), parse the filename (a parse failure
raises before any mutation), append one row to the csv, move the file
into the label's sub-directory, overwrite the undo record with
`[destination, source]`, and advance to the next image.
`Except.error` carries the state at the raise point: a failed
`os.rename` (missing source file) leaves the already-appended log row
behind, exactly as the source does. -/
def on_btn_click (cfg : Config) (now : String) (btnIdx : Nat) (s : LabelerState) :
    Except LabelerState LabelerState :=
  match cfg.labels[btnIdx]? with
  | none => .error s
  | some label =>
    match pyGet cfg.imageFilenames s.imgIdx with
    | none => .error s
    | some img_filename =>
      match parseFilename img_filename with
      | none => .error s
      | some (serial, itr, fname) =>
        let row := String.intercalate "," [now, serial, itr, fname, label]
        let s1 := { s with log := s.log ++ [row] }
        let src := joinPath cfg.path img_filename
        let dst := joinPath (joinPath cfg.path label) img_filename
        if src ∈ s1.fs then
          let s2 := { s1 with fs := (s1.fs.erase src).insert dst, undoRec := [dst, src] }
          .ok (change_img cfg false s2)
        else
          .error s1

/-- The three outcomes `undo_click` reports: a successful undo, the
warning "Sorry, you can only undo once!", and the warning
"Nothing to undo.". -/
inductive UndoOutcome where
  | undone
  | onlyOnce
  | nothingToUndo
deriving DecidableEq

/-- `undo_click` (lines 127–142): if the undo record has two entries
and the file at its first entry (the post-move destination) still
exists, move it back, step the index back by one, and drop the last
log row; otherwise only show a warning.  The record itself is never
cleared — a second undo fails because the destination file is gone. -/
def undo_click (cfg : Config) (s : LabelerState) : LabelerState × UndoOutcome :=
  match s.undoRec with
  | [u0, u1] =>
    if u0 ∈ s.fs then
      let s1 := { s with fs := (s.fs.erase u0).insert u1 }
      let s2 := change_img cfg true s1
      ({ s2 with log := s2.log.dropLast }, .undone)
    else
      (s, .onlyOnce)
  | _ => (s, .nothingToUndo)

/-- The user events the presentation layer forwards to the session
controller. -/
inductive UiEvent where
  | btnClick (btnIdx : Nat)
  | keyPress (c : Char)
  | undoBtn

/-- One turn of the tkinter event loop.  After `window.quit()`
(`finished = true`) the main loop has exited and no callback runs, so
every event leaves the state untouched.  A key press is routed through
`keyboard_shortcuts_indexed_by_letter` (`handle_keypress`, lines
205–208); unmapped keys are ignored.  An exception raised inside a
callback is caught and reported by tkinter: the state mutated so far
persists and the loop continues. -/
def handleEvent (cfg : Config) (now : String) (e : UiEvent) (s : LabelerState) : LabelerState :=
  if s.finished then s
  else
    match e with
    | .btnClick b =>
      match on_btn_click cfg now b s with
      | .ok s' => s'
      | .error s' => s'
    | .keyPress c =>
      match cfg.shortcuts.byLetter.lookup c with
      | some i =>
        match on_btn_click cfg now i s with
        | .ok s' => s'
        | .error s' => s'
      | none => s
    | .undoBtn => (undo_click cfg s).1

/-- A sequence of label actions, each a `(button index, timestamp)`
pair; the run stops at the first exception. -/
def runActions (cfg : Config) : List (Nat × String) → LabelerState → Except LabelerState LabelerState
  | [], s => .ok s
  | (b, now) :: rest, s =>
    match on_btn_click cfg now b s with
    | .ok s' => runActions cfg rest s'
    | .error e => .error e

/-- The state right after the module-level initialisation (`img_idx =
-1`, `undo = []`) with filesystem `fs0` and log `log0`. -/
def initialState (fs0 log0 : List String) : LabelerState :=
  { imgIdx := -1, undoRec := [], fs := fs0, log := log0, finished := false,
    completionMsg := none }

/-- A fresh session (empty log): the initial `change_img()` call of
line 213 advances the cursor from `-1` to `0` before any interaction. -/
def startSession (cfg : Config) (fs0 : List String) : LabelerState :=
  change_img cfg false (initialState fs0 [])

/-! Concrete data used by the witness theorems: a root directory `"r"`
with one label sub-directory `"a"` and two images whose names follow
the `serial_iteration_basename` pattern. -/

/-- Demo configuration for witnesses. -/
def cfgDemo : Config :=
  { path := "r", labels := ["a"], imageFilenames := ["1_2_x.png", "3_4_y.png"],
    shortcuts := ⟨[('a', 0)], [(0, 0)]⟩ }

/-- Demo root filesystem: both images present at the root. -/
def fsDemo : List String := ["r/1_2_x.png", "r/3_4_y.png"]

/-- The demo state after one successful label action on a fresh
session. -/
def demoAfterOne : LabelerState :=
  match runActions cfgDemo [(0, "t1")] (startSession cfgDemo fsDemo) with
  | .ok s => s
  | .error s => s

/-- The demo state after labeling both images of the fresh session
(the run that exhausts the queue). -/
def demoFinal : LabelerState :=
  match runActions cfgDemo [(0, "t1"), (0, "t2")] (startSession cfgDemo fsDemo) with
  | .ok s => s
  | .error s => s

/-- Demo configuration whose single image name does not follow the
`serial_iteration` pattern. -/
def cfgBad : Config :=
  { path := "r", labels := ["a"], imageFilenames := ["noformat.png"],
    shortcuts := ⟨[('a', 0)], [(0, 0)]⟩ }

/-- A degenerate random source for witnesses. -/
def rbZero : Nat → Nat := fun _ => 0

/-- Demo directory listing for the image-queue witness. -/
def demoDirs : List String := ["cat"]

/-- Demo file listing for the image-queue witness (one file filtered
out by extension, one by case sensitivity). -/
def demoFiles : List String := ["a_1.png", "b.txt", "c_2.JPG"]

end ImageLabeler

namespace ImageLabeler

/-! ## Association-list lemmas -/

lemma lookup_append {α β : Type} [BEq α] (l₁ l₂ : List (α × β)) (a : α) :
    (l₁ ++ l₂).lookup a = (l₁.lookup a).or (l₂.lookup a) := by
  induction l₁ with
  | nil => simp [List.lookup]
  | cons p t ih =>
    obtain ⟨k, v⟩ := p
    cases h : a == k with
    | true => simp [List.lookup, h]
    | false => simpa [List.lookup, h] using ih

lemma lookup_none_iff {α β : Type} [BEq α] [LawfulBEq α] (l : List (α × β)) (a : α) :
    l.lookup a = none ↔ a ∉ l.map Prod.fst := by
  induction l with
  | nil => simp [List.lookup]
  | cons p t ih =>
    obtain ⟨k, v⟩ := p
    cases h : a == k with
    | true =>
      have : a = k := by simpa using h
      simp [List.lookup, h, this]
    | false =>
      have : ¬a = k := by simpa using h
      simp [List.lookup, h, this, ih]

/-! ## Permutation lemmas for `random.shuffle` -/

lemma cons_set_perm {α : Type} (a x : α) :
    ∀ (t : List α) (m : Nat), t[m]? = some x → (x :: t.set m a).Perm (a :: t) := by
  intro t
  induction t generalizing x with
  | nil => intro m h; simp at h
  | cons b t ih =>
    intro m h
    match m with
    | 0 =>
      have hx : b = x := by simpa using h
      subst hx
      simpa using List.Perm.swap a b t
    | m + 1 =>
      simp only [List.getElem?_cons_succ] at h
      simp only [List.set_cons_succ]
      exact ((List.Perm.swap b x (t.set m a)).trans ((ih x m h).cons b)).trans
        (List.Perm.swap a b t)

lemma set_set_perm {α : Type} :
    ∀ (l : List α) (i j : Nat) (a b : α), l[i]? = some a → l[j]? = some b →
      ((l.set i b).set j a).Perm l := by
  intro l
  induction l with
  | nil => intro i j a b hi; simp at hi
  | cons c t ih =>
    intro i j a b hi hj
    match i, j with
    | 0, 0 =>
      have h1 : c = a := by simpa using hi
      have h2 : c = b := by simpa using hj
      subst h1; subst h2
      simp
    | 0, m + 1 =>
      have h1 : c = a := by simpa using hi
      subst h1
      simp only [List.getElem?_cons_succ] at hj
      simp only [List.set_cons_zero, List.set_cons_succ]
      exact cons_set_perm c b t m hj
    | k + 1, 0 =>
      have h2 : c = b := by simpa using hj
      subst h2
      simp only [List.getElem?_cons_succ] at hi
      simp only [List.set_cons_succ, List.set_cons_zero]
      exact cons_set_perm c a t k hi
    | k + 1, m + 1 =>
      simp only [List.getElem?_cons_succ] at hi hj
      simp only [List.set_cons_succ]
      exact (ih k m a b hi hj).cons c

lemma listSwap_perm (l : List String) (i j : Nat) : (listSwap l i j).Perm l := by
  unfold listSwap
  cases hi : l[i]? with
  | none => exact List.Perm.refl l
  | some a =>
    cases hj : l[j]? with
    | none => exact List.Perm.refl l
    | some b => exact set_set_perm l i j a b hi hj

lemma pyShuffleGo_perm (rb : Nat → Nat) :
    ∀ (n : Nat) (l : List String), (pyShuffleGo rb n l).Perm l := by
  intro n
  induction n with
  | zero => intro l; exact List.Perm.refl l
  | succ n ih =>
    intro l
    exact (ih (listSwap l (n + 1) (rb (n + 2) % (n + 2)))).trans
      (listSwap_perm l (n + 1) (rb (n + 2) % (n + 2)))

lemma pyShuffle_perm (rb : Nat → Nat) (l : List String) : (pyShuffle rb l).Perm l :=
  pyShuffleGo_perm rb (l.length - 1) l

/-! ## Lemmas about the filename parse -/

lemma pySplitGo_single_no_sep (c : Char) :
    ∀ (fuel : Nat) (acc cs : List Char), c ∉ cs →
      pySplitGo [c] fuel acc cs = [acc.reverse ++ cs] := by
  intro fuel
  induction fuel with
  | zero =>
    intro acc cs _
    cases cs <;> simp [pySplitGo]
  | succ fuel ih =>
    intro acc cs h
    cases cs with
    | nil => simp [pySplitGo]
    | cons d ds =>
      have hne : ¬c = d := fun hcd => h (hcd ▸ List.mem_cons_self c ds)
      have hds : c ∉ ds := fun hm => h (List.mem_cons_of_mem d hm)
      have hpre : [c].isPrefixOf (d :: ds) = false := by
        simp [List.isPrefixOf, hne]
      simp [pySplitGo, hpre, ih (d :: acc) ds hds]

/-! ## C9: the filename parse fails without the expected pattern -/

/-- C9: a label action whose current filename does not follow the
`serial_iteration...` naming pattern — in particular any filename
containing no underscore — fails at the parsing step (`parts[1]`
raises `IndexError`), so the parse succeeds only for filenames with
that shape. -/
theorem parse_fails_without_underscore (f : String) (h : '_' ∉ f.toList) :
    parseFilename f = none := by
  unfold parseFilename pySplit
  rw [pySplitGo_single_no_sep '_' f.toList.length [] f.toList h]

/-- Witness for `parse_fails_without_underscore` at a concrete
underscore-free filename. -/
theorem parse_fails_without_underscore_witness :
    '_' ∉ "frame7png".toList ∧ parseFilename "frame7png" = none :=
  ⟨by decide, parse_fails_without_underscore "frame7png" (by decide)⟩

/-! ## C4: the image queue is a permutation of the accepted files -/

/-- C4: the queue built at startup is a permutation of exactly the
immediate files of the root listing whose name ends in `.png`, `.jpg`
or `.jpeg` (case-sensitively); every queue entry comes from the file
listing with an accepted extension, and no sub-directory name (which
is disjoint from the file listing) can appear in it. -/
theorem image_queue_is_filtered_permutation (rb : Nat → Nat)
    (dirnames filenames : List String) :
    (load_image_filenames rb dirnames filenames).Perm (filenames.filter isImageFile) ∧
    (∀ x, x ∈ load_image_filenames rb dirnames filenames →
      x ∈ filenames ∧ isImageFile x = true) ∧
    (∀ d, d ∈ dirnames → d ∉ filenames → d ∉ load_image_filenames rb dirnames filenames) := by
  have hperm : (load_image_filenames rb dirnames filenames).Perm
      (filenames.filter isImageFile) := pyShuffle_perm rb _
  refine ⟨hperm, ?_, ?_⟩
  · intro x hx
    have hx' : x ∈ filenames.filter isImageFile := hperm.mem_iff.mp hx
    exact ⟨(List.mem_filter.mp hx').1, (List.mem_filter.mp hx').2⟩
  · intro d _ hdn hmem
    exact hdn (List.mem_filter.mp (hperm.mem_iff.mp hmem)).1

/-- Witness for `image_queue_is_filtered_permutation` on a concrete
listing: `b.txt` and `c_2.JPG` are filtered out and the label
directory name `cat` never enters the queue. -/
theorem image_queue_is_filtered_permutation_witness :
    (load_image_filenames rbZero demoDirs demoFiles).Perm ["a_1.png"] ∧
    "cat" ∉ load_image_filenames rbZero demoDirs demoFiles :=
  ⟨by
    have h := (image_queue_is_filtered_permutation rbZero demoDirs demoFiles).1
    have he : demoFiles.filter isImageFile = ["a_1.png"] := by decide
    rw [he] at h
    exact h,
   (image_queue_is_filtered_permutation rbZero demoDirs demoFiles).2.2 "cat"
    (by decide) (by decide)⟩

/-! ## Field lemmas for `change_img` -/

lemma change_img_undoRec (cfg : Config) (d : Bool) (s : LabelerState) :
    (change_img cfg d s).undoRec = s.undoRec := by
  unfold change_img
  dsimp only
  split <;> split <;> rfl

lemma change_img_fs (cfg : Config) (d : Bool) (s : LabelerState) :
    (change_img cfg d s).fs = s.fs := by
  unfold change_img
  dsimp only
  split <;> split <;> rfl

lemma change_img_log (cfg : Config) (d : Bool) (s : LabelerState) :
    (change_img cfg d s).log = s.log := by
  unfold change_img
  dsimp only
  split <;> split <;> rfl

lemma change_img_imgIdx (cfg : Config) (d : Bool) (s : LabelerState) :
    (change_img cfg d s).imgIdx = if d then s.imgIdx - 1 else s.imgIdx + 1 := by
  unfold change_img
  dsimp only
  split <;> split <;> rfl

/-! ## Characterisation of a successful label action -/

lemma on_btn_click_ok (cfg : Config) (now : String) (b : Nat) (s s' : LabelerState)
    (h : on_btn_click cfg now b s = .ok s') :
    ∃ label f serial itr fname,
      cfg.labels[b]? = some label ∧
      pyGet cfg.imageFilenames s.imgIdx = some f ∧
      parseFilename f = some (serial, itr, fname) ∧
      joinPath cfg.path f ∈ s.fs ∧
      s' = change_img cfg false
        { s with
          log := s.log ++ [String.intercalate "," [now, serial, itr, fname, label]],
          fs := (s.fs.erase (joinPath cfg.path f)).insert (joinPath (joinPath cfg.path label) f),
          undoRec := [joinPath (joinPath cfg.path label) f, joinPath cfg.path f] } := by
  unfold on_btn_click at h
  cases hl : cfg.labels[b]? with
  | none => simp [hl] at h
  | some label =>
    simp only [hl] at h
    cases hf : pyGet cfg.imageFilenames s.imgIdx with
    | none => simp [hf] at h
    | some f =>
      simp only [hf] at h
      cases hp : parseFilename f with
      | none => simp [hp] at h
      | some trip =>
        obtain ⟨serial, itr, fname⟩ := trip
        simp only [hp] at h
        split at h
        case isTrue hmem =>
          injection h with h'
          exact ⟨label, f, serial, itr, fname, rfl, rfl, hp, by simpa using hmem, h'.symm⟩
        case isFalse hne => simp at h

/-! ## C10: a parse failure mutates nothing -/

/-- C10: when the filename-parsing step of a label action fails, the
failure is atomic — the callback raises before the log append, the
file move, the undo-record overwrite and the cursor advance, so the
state at the exception point is exactly the state before the click. -/
theorem parse_failure_is_atomic (cfg : Config) (now : String) (b : Nat)
    (s : LabelerState) (label f : String)
    (hl : cfg.labels[b]? = some label)
    (hf : pyGet cfg.imageFilenames s.imgIdx = some f)
    (hp : parseFilename f = none) :
    on_btn_click cfg now b s = .error s := by
  unfold on_btn_click
  simp only [hl, hf, hp]

/-- Witness for `parse_failure_is_atomic`: clicking the only label
button of `cfgBad` while `noformat.png` is current raises in the parse
and leaves the fresh state untouched. -/
theorem parse_failure_is_atomic_witness :
    on_btn_click cfgBad "t" 0 (startSession cfgBad ["r/noformat.png"]) =
      .error (startSession cfgBad ["r/noformat.png"]) :=
  parse_failure_is_atomic cfgBad "t" 0 (startSession cfgBad ["r/noformat.png"])
    "a" "noformat.png" (by decide) (by decide) (by decide)

/-! ## Characterisation of `undo_click` -/

lemma undo_click_succeeds (cfg : Config) (t : LabelerState) (d r : String)
    (hrec : t.undoRec = [d, r]) (hmem : d ∈ t.fs) :
    (undo_click cfg t).2 = UndoOutcome.undone ∧
    (undo_click cfg t).1.undoRec = [d, r] ∧
    (undo_click cfg t).1.fs = (t.fs.erase d).insert r ∧
    (undo_click cfg t).1.imgIdx = t.imgIdx - 1 ∧
    (undo_click cfg t).1.log = t.log.dropLast := by
  obtain ⟨i, u, fs, l, fin, cm⟩ := t
  dsimp only at hrec hmem
  subst hrec
  unfold undo_click
  dsimp only
  rw [if_pos hmem]
  refine ⟨rfl, ?_, ?_, ?_, ?_⟩
  · simpa using change_img_undoRec cfg true _
  · simpa using change_img_fs cfg true _
  · have h := change_img_imgIdx cfg true
      { imgIdx := i, undoRec := [d, r], fs := (fs.erase d).insert r, log := l,
        finished := fin, completionMsg := cm }
    simpa using h
  · rw [change_img_log]

lemma undo_click_gone (cfg : Config) (t : LabelerState) (d r : String)
    (hrec : t.undoRec = [d, r]) (hmem : d ∉ t.fs) :
    undo_click cfg t = (t, UndoOutcome.onlyOnce) := by
  obtain ⟨i, u, fs, l, fin, cm⟩ := t
  dsimp only at hrec hmem
  subst hrec
  unfold undo_click
  dsimp only
  rw [if_neg hmem]

lemma undo_click_no_rec (cfg : Config) (t : LabelerState)
    (h : t.undoRec.length ≠ 2) :
    undo_click cfg t = (t, UndoOutcome.nothingToUndo) := by
  obtain ⟨i, u, fs, l, fin, cm⟩ := t
  dsimp only at h
  match u with
  | [] => rfl
  | [_] => rfl
  | [_, _] => exact absurd rfl h
  | _ :: _ :: _ :: _ => rfl

/-! ## C1: a label action followed immediately by undo restores state -/

/-- C1: from any state in which a label action succeeds, immediately
calling undo succeeds and restores (a) the moved file to its original
root path, (b) the log to its prior rows, (c) the queue index to its
prior value; when no file pre-existed at the move destination the
visible filesystem is restored exactly. -/
theorem label_then_undo_restores (cfg : Config) (now : String) (b : Nat)
    (s s₁ : LabelerState) (label f : String)
    (hl : cfg.labels[b]? = some label)
    (hf : pyGet cfg.imageFilenames s.imgIdx = some f)
    (hok : on_btn_click cfg now b s = .ok s₁) :
    (undo_click cfg s₁).2 = UndoOutcome.undone ∧
    (undo_click cfg s₁).1.imgIdx = s.imgIdx ∧
    (undo_click cfg s₁).1.log = s.log ∧
    joinPath cfg.path f ∈ (undo_click cfg s₁).1.fs ∧
    (joinPath (joinPath cfg.path label) f ∉ s.fs →
      ∀ p, p ∈ (undo_click cfg s₁).1.fs ↔ p ∈ s.fs) := by
  obtain ⟨label', f', serial, itr, fname, hl', hf', hp', hmem, hs⟩ :=
    on_btn_click_ok cfg now b s s₁ hok
  rw [hl] at hl'
  rw [hf] at hf'
  injection hl' with hle
  injection hf' with hfe
  subst hle
  subst hfe
  have hur : s₁.undoRec = [joinPath (joinPath cfg.path label) f, joinPath cfg.path f] := by
    rw [hs, change_img_undoRec]
  have hfs1 : s₁.fs =
      (s.fs.erase (joinPath cfg.path f)).insert (joinPath (joinPath cfg.path label) f) := by
    rw [hs, change_img_fs]
  have hlog1 : s₁.log =
      s.log ++ [String.intercalate "," [now, serial, itr, fname, label]] := by
    rw [hs, change_img_log]
  have hidx1 : s₁.imgIdx = s.imgIdx + 1 := by
    rw [hs, change_img_imgIdx]
    rfl
  have hmem1 : joinPath (joinPath cfg.path label) f ∈ s₁.fs := by
    rw [hfs1]
    exact List.mem_insert_self _ _
  obtain ⟨ho, _, hfs2, hidx2, hlog2⟩ := undo_click_succeeds cfg s₁ _ _ hur hmem1
  refine ⟨ho, ?_, ?_, ?_, ?_⟩
  · rw [hidx2, hidx1]
    omega
  · rw [hlog2, hlog1]
    exact List.dropLast_concat
  · rw [hfs2]
    exact List.mem_insert_self _ _
  · intro hnd p
    rw [hfs2, hfs1]
    have h1 : joinPath (joinPath cfg.path label) f ∉ s.fs.erase (joinPath cfg.path f) :=
      fun hc => hnd (List.mem_of_mem_erase hc)
    rw [List.insert_of_not_mem h1, List.erase_cons_head]
    by_cases hps : p = joinPath cfg.path f
    · subst hps
      exact iff_of_true (List.mem_insert_self _ _) hmem
    · rw [List.mem_insert_iff]
      constructor
      · intro hc
        rcases hc with hc | hc
        · exact absurd hc hps
        · exact List.mem_of_mem_erase hc
      · intro hc
        exact Or.inr ((List.mem_erase_of_ne hps).mpr hc)

/-- Witness for `label_then_undo_restores`: labeling `1_2_x.png` in
the demo session and undoing returns to index 0, the empty log, and a
filesystem containing the file at its root path again. -/
theorem label_then_undo_restores_witness :
    (undo_click cfgDemo demoAfterOne).2 = UndoOutcome.undone ∧
    (undo_click cfgDemo demoAfterOne).1.imgIdx = (startSession cfgDemo fsDemo).imgIdx ∧
    (undo_click cfgDemo demoAfterOne).1.log = (startSession cfgDemo fsDemo).log ∧
    joinPath cfgDemo.path "1_2_x.png" ∈ (undo_click cfgDemo demoAfterOne).1.fs ∧
    ("r/1_2_x.png" ∈ (undo_click cfgDemo demoAfterOne).1.fs ↔
      "r/1_2_x.png" ∈ (startSession cfgDemo fsDemo).fs) := by
  have h := label_then_undo_restores cfgDemo "t1" 0 (startSession cfgDemo fsDemo)
    demoAfterOne "a" "1_2_x.png" (by decide) (by decide) (by rfl)
  exact ⟨h.1, h.2.1, h.2.2.1, h.2.2.2.1, h.2.2.2.2 (by decide) "r/1_2_x.png"⟩

/-! ## C3: undo succeeds at most once -/

/-- C3: with a pending undo record (as created by a label action: two
distinct paths, destination still on disk), the first undo succeeds
and a second immediate undo reports the only-once warning and returns
the state completely unchanged; an undo with no pending two-entry
record reports the nothing-to-undo warning and also changes nothing. -/
theorem undo_twice_fails_second_time (cfg : Config) (s : LabelerState) (d r : String)
    (hrec : s.undoRec = [d, r]) (hmem : d ∈ s.fs) (hne : d ≠ r) (hnd : s.fs.Nodup) :
    ((undo_click cfg s).2 = UndoOutcome.undone ∧
      undo_click cfg (undo_click cfg s).1 = ((undo_click cfg s).1, UndoOutcome.onlyOnce)) ∧
    (∀ t : LabelerState, t.undoRec.length ≠ 2 →
      undo_click cfg t = (t, UndoOutcome.nothingToUndo)) := by
  obtain ⟨ho, hur, hfs, _, _⟩ := undo_click_succeeds cfg s d r hrec hmem
  refine ⟨⟨ho, ?_⟩, fun t ht => undo_click_no_rec cfg t ht⟩
  apply undo_click_gone cfg _ d r hur
  rw [hfs]
  intro hc
  rcases List.mem_insert_iff.mp hc with hc | hc
  · exact hne hc
  · exact absurd ((hnd.mem_erase_iff).mp hc).1 (by simp)

/-- Witness for `undo_twice_fails_second_time` at the demo state after
one label action. -/
theorem undo_twice_fails_second_time_witness :
    ((undo_click cfgDemo demoAfterOne).2 = UndoOutcome.undone ∧
      undo_click cfgDemo (undo_click cfgDemo demoAfterOne).1 =
        ((undo_click cfgDemo demoAfterOne).1, UndoOutcome.onlyOnce)) ∧
    undo_click cfgDemo (initialState fsDemo []) =
      (initialState fsDemo [], UndoOutcome.nothingToUndo) := by
  have h := undo_twice_fails_second_time cfgDemo demoAfterOne
    "r/a/1_2_x.png" "r/1_2_x.png" (by rfl) (by decide) (by decide) (by decide)
  exact ⟨h.1, h.2 (initialState fsDemo []) (by decide)⟩

/-! ## Counting lemmas for runs of label actions -/

lemma change_img_false_eq (cfg : Config) (s : LabelerState) :
    change_img cfg false s =
      if (cfg.imageFilenames.length : Int) ≤ s.imgIdx + 1 then
        { s with imgIdx := s.imgIdx + 1, finished := true,
                 completionMsg := some (s.imgIdx + 1) }
      else
        { s with imgIdx := s.imgIdx + 1 } := rfl

lemma on_btn_click_ok_counts (cfg : Config) (now : String) (b : Nat)
    (s s' : LabelerState) (h : on_btn_click cfg now b s = .ok s') :
    s'.imgIdx = s.imgIdx + 1 ∧ s'.log.length = s.log.length + 1 := by
  obtain ⟨label, f, serial, itr, fname, _, _, _, _, hs⟩ :=
    on_btn_click_ok cfg now b s s' h
  subst hs
  constructor
  · rw [change_img_imgIdx]
    rfl
  · rw [change_img_log]
    simp

lemma runActions_counts :
    ∀ (acts : List (Nat × String)) (cfg : Config) (s s' : LabelerState),
      runActions cfg acts s = .ok s' →
      s'.imgIdx = s.imgIdx + acts.length ∧ s'.log.length = s.log.length + acts.length := by
  intro acts
  induction acts with
  | nil =>
    intro cfg s s' h
    injection h with h'
    subst h'
    simp
  | cons a rest ih =>
    intro cfg s s' h
    obtain ⟨b, now⟩ := a
    unfold runActions at h
    cases hstep : on_btn_click cfg now b s with
    | error e => rw [hstep] at h; simp at h
    | ok smid =>
      rw [hstep] at h
      obtain ⟨h1, h2⟩ := ih cfg smid s' h
      obtain ⟨h3, h4⟩ := on_btn_click_ok_counts cfg now b s smid hstep
      constructor
      · rw [h1, h3, List.length_cons]
        push_cast
        omega
      · rw [h2, h4, List.length_cons]
        omega

/-! ## The completion invariant -/

lemma pyGet_none_of_ge (l : List String) (i : Int) (h0 : 0 ≤ i)
    (h : (l.length : Int) ≤ i) : pyGet l i = none := by
  unfold pyGet
  rw [if_pos h0]
  apply List.getElem?_eq_none
  omega

lemma on_btn_click_ok_inv (cfg : Config) (now : String) (b : Nat)
    (s s' : LabelerState) (h : on_btn_click cfg now b s = .ok s')
    (h0 : 0 ≤ s.imgIdx)
    (hfin : s.finished = true → (cfg.imageFilenames.length : Int) ≤ s.imgIdx) :
    0 ≤ s'.imgIdx ∧
    (s'.finished = true → s'.completionMsg = some s'.imgIdx ∧
      (cfg.imageFilenames.length : Int) ≤ s'.imgIdx) := by
  obtain ⟨label, f, serial, itr, fname, _, hf', _, _, hs⟩ :=
    on_btn_click_ok cfg now b s s' h
  have hlt : s.imgIdx < (cfg.imageFilenames.length : Int) := by
    by_contra hc
    rw [pyGet_none_of_ge cfg.imageFilenames s.imgIdx h0 (by omega)] at hf'
    exact Option.noConfusion hf'
  have hnf : s.finished = false := by
    cases hff : s.finished with
    | false => rfl
    | true => exact absurd (hfin hff) (by omega)
  subst hs
  rw [change_img_false_eq]
  split
  case isTrue hc =>
    refine ⟨by dsimp only; omega, fun _ => ⟨rfl, by dsimp only; exact hc⟩⟩
  case isFalse hc =>
    refine ⟨by dsimp only; omega, fun hff => ?_⟩
    dsimp only at hff
    rw [hnf] at hff
    exact Bool.noConfusion hff

lemma runActions_inv :
    ∀ (acts : List (Nat × String)) (cfg : Config) (s s' : LabelerState),
      runActions cfg acts s = .ok s' →
      0 ≤ s.imgIdx →
      (s.finished = true → s.completionMsg = some s.imgIdx ∧
        (cfg.imageFilenames.length : Int) ≤ s.imgIdx) →
      0 ≤ s'.imgIdx ∧
      (s'.finished = true → s'.completionMsg = some s'.imgIdx ∧
        (cfg.imageFilenames.length : Int) ≤ s'.imgIdx) := by
  intro acts
  induction acts with
  | nil =>
    intro cfg s s' h h0 hfin
    injection h with h'
    subst h'
    exact ⟨h0, hfin⟩
  | cons a rest ih =>
    intro cfg s s' h h0 hfin
    obtain ⟨b, now⟩ := a
    unfold runActions at h
    cases hstep : on_btn_click cfg now b s with
    | error e => rw [hstep] at h; simp at h
    | ok smid =>
      rw [hstep] at h
      obtain ⟨g0, gfin⟩ := on_btn_click_ok_inv cfg now b s smid hstep h0
        (fun hff => (hfin hff).2)
      exact ih cfg smid s' h g0 gfin

lemma startSession_imgIdx (cfg : Config) (fs0 : List String) :
    (startSession cfg fs0).imgIdx = 0 := by
  unfold startSession
  rw [change_img_false_eq]
  split <;> rfl

lemma startSession_log (cfg : Config) (fs0 : List String) :
    (startSession cfg fs0).log = [] := by
  unfold startSession
  rw [change_img_false_eq]
  split <;> rfl

lemma startSession_inv (cfg : Config) (fs0 : List String) :
    (startSession cfg fs0).finished = true →
      (startSession cfg fs0).completionMsg = some (startSession cfg fs0).imgIdx ∧
      (cfg.imageFilenames.length : Int) ≤ (startSession cfg fs0).imgIdx := by
  unfold startSession
  rw [change_img_false_eq]
  split
  case isTrue hc =>
    intro _
    refine ⟨rfl, ?_⟩
    dsimp only [initialState] at hc ⊢
    omega
  case isFalse hc =>
    intro hff
    exact Bool.noConfusion hff

lemma handleEvent_finished (cfg : Config) (now : String) (e : UiEvent)
    (s : LabelerState) (h : s.finished = true) : handleEvent cfg now e s = s := by
  unfold handleEvent
  rw [if_pos h]

/-! ## C7: N label actions give N log rows and cursor N -/

/-- C7: from a fresh session (the cursor starts at `-1` and the
initial `change_img` moves it to `0` before any interaction), a run of
N successful label actions leaves exactly N rows in the log and the
cursor at N — each action appends one row and advances the cursor by
one. -/
theorem log_rows_and_cursor_after_n_actions (cfg : Config) (fs0 : List String)
    (acts : List (Nat × String)) (s' : LabelerState)
    (h : runActions cfg acts (startSession cfg fs0) = .ok s') :
    (startSession cfg fs0).imgIdx = 0 ∧
    s'.log.length = acts.length ∧
    s'.imgIdx = (acts.length : Int) := by
  obtain ⟨h1, h2⟩ := runActions_counts acts cfg _ s' h
  refine ⟨startSession_imgIdx cfg fs0, ?_, ?_⟩
  · rw [h2, startSession_log]
    simp
  · rw [h1, startSession_imgIdx]
    omega

/-- Witness for `log_rows_and_cursor_after_n_actions`: the demo run of
two label actions ends with two log rows and cursor 2. -/
theorem log_rows_and_cursor_after_n_actions_witness :
    (startSession cfgDemo fsDemo).imgIdx = 0 ∧
    demoFinal.log.length = 2 ∧
    demoFinal.imgIdx = (2 : Int) :=
  log_rows_and_cursor_after_n_actions cfgDemo fsDemo [(0, "t1"), (0, "t2")]
    demoFinal (by rfl)

/-! ## C8: reaching the end reports the count and is terminal -/

/-- C8: when a fresh-session run of K label actions ends with the
queue exhausted (`window.quit()` reached), the completion dialog
reports exactly K — the number of images labeled — the cursor sits at
K, and once the session has terminated no further event (label click,
key press or undo) changes the state in any way. -/
theorem completion_reports_count_and_is_terminal (cfg : Config) (fs0 : List String)
    (acts : List (Nat × String)) (s' : LabelerState)
    (h : runActions cfg acts (startSession cfg fs0) = .ok s')
    (hfin : s'.finished = true) :
    s'.completionMsg = some (acts.length : Int) ∧
    s'.imgIdx = (acts.length : Int) ∧
    (∀ (now : String) (e : UiEvent), handleEvent cfg now e s' = s') := by
  have hidx : s'.imgIdx = (acts.length : Int) :=
    (log_rows_and_cursor_after_n_actions cfg fs0 acts s' h).2.2
  have hinv := runActions_inv acts cfg _ s' h
    (by rw [startSession_imgIdx]) (startSession_inv cfg fs0)
  refine ⟨?_, hidx, fun now e => handleEvent_finished cfg now e s' hfin⟩
  rw [(hinv.2 hfin).1, hidx]

/-- Witness for `completion_reports_count_and_is_terminal`: the demo
run that labels both images terminates reporting 2, and an undo click
afterwards changes nothing. -/
theorem completion_reports_count_and_is_terminal_witness :
    demoFinal.completionMsg = some (2 : Int) ∧
    demoFinal.imgIdx = (2 : Int) ∧
    handleEvent cfgDemo "t" UiEvent.undoBtn demoFinal = demoFinal := by
  have h := completion_reports_count_and_is_terminal cfgDemo fsDemo
    [(0, "t1"), (0, "t2")] demoFinal (by rfl) (by decide)
  exact ⟨h.1, h.2.1, h.2.2 "t" UiEvent.undoBtn⟩

/-! ## Lemmas about `firstFree` and the shortcut fold -/

lemma lookup_isSome_eq_contains {α β : Type} [BEq α] (bl : List (α × β)) (d : α) :
    (bl.lookup d).isSome = (bl.map Prod.fst).contains d := by
  induction bl with
  | nil => rfl
  | cons p t ih =>
    obtain ⟨k, v⟩ := p
    cases h : d == k with
    | true => simp [List.lookup, h, List.contains_cons]
    | false => simp [List.lookup, h, List.contains_cons, ih]

lemma firstFree_some_lookup :
    ∀ (cs : List Char) (bl : List (Char × Nat)) (k j : Nat) (c : Char),
      firstFree bl cs k = some (j, c) → bl.lookup c = none := by
  intro cs
  induction cs with
  | nil => intro bl k j c h; exact absurd h (by simp [firstFree])
  | cons d ds ih =>
    intro bl k j c h
    unfold firstFree at h
    split at h
    case isTrue => exact ih bl (k + 1) j c h
    case isFalse hfree =>
      injection h with h'
      injection h' with hj hc
      subst hc
      cases hlk : bl.lookup d with
      | none => rfl
      | some v => rw [hlk] at hfree; exact absurd rfl hfree

lemma firstFree_some_spec :
    ∀ (cs : List Char) (bl : List (Char × Nat)) (k j : Nat) (c : Char),
      firstFree bl cs k = some (j, c) →
      cs.find? (fun d => !((bl.map Prod.fst).contains d)) = some c ∧
      k ≤ j ∧ cs[j - k]? = some c := by
  intro cs
  induction cs with
  | nil => intro bl k j c h; exact absurd h (by simp [firstFree])
  | cons d ds ih =>
    intro bl k j c h
    unfold firstFree at h
    split at h
    case isTrue hsome =>
      obtain ⟨hf, hk, hget⟩ := ih bl (k + 1) j c h
      have hpd : (!((bl.map Prod.fst).contains d)) = false := by
        rw [← lookup_isSome_eq_contains, hsome]
        rfl
      refine ⟨?_, by omega, ?_⟩
      · rw [List.find?_cons, hpd]
        exact hf
      · have hjk : j - k = (j - (k + 1)) + 1 := by omega
        rw [hjk, List.getElem?_cons_succ]
        exact hget
    case isFalse hfree =>
      injection h with h'
      injection h' with hj hc
      subst hj
      subst hc
      have hb : (bl.lookup d).isSome = false := by
        rw [Bool.not_eq_true] at hfree
        exact hfree
      have hpd : (!((bl.map Prod.fst).contains d)) = true := by
        rw [← lookup_isSome_eq_contains, hb]
        rfl
      refine ⟨?_, le_refl k, by simp⟩
      rw [List.find?_cons, hpd]

lemma firstFree_none_spec :
    ∀ (cs : List Char) (bl : List (Char × Nat)) (k : Nat),
      firstFree bl cs k = none →
      cs.find? (fun d => !((bl.map Prod.fst).contains d)) = none := by
  intro cs
  induction cs with
  | nil => intro bl k _; rfl
  | cons d ds ih =>
    intro bl k h
    unfold firstFree at h
    split at h
    case isTrue hsome =>
      have hpd : (!((bl.map Prod.fst).contains d)) = false := by
        rw [← lookup_isSome_eq_contains, hsome]
        rfl
      rw [List.find?_cons, hpd]
      exact ih bl (k + 1) h
    case isFalse hfree => exact absurd h (by simp)

lemma addLabel_byIdx_lookup_ne (st : Shortcuts) (i0 : Nat) (l : String) (j : Nat)
    (hj : j ≠ i0) :
    (addLabel st i0 l).byIdx.lookup j = st.byIdx.lookup j := by
  unfold addLabel
  cases hff : firstFree st.byLetter l.toList 0 with
  | none => rfl
  | some kc =>
    obtain ⟨k, c⟩ := kc
    dsimp only
    rw [lookup_append]
    have hbeq : (j == i0) = false := beq_eq_false_iff_ne.mpr hj
    have hsing : (([(i0, k)] : List (Nat × Nat)).lookup j) = none := by
      simp [List.lookup, hbeq]
    rw [hsing]
    cases st.byIdx.lookup j <;> rfl

lemma foldFrom_byIdx_lookup_lt :
    ∀ (ls : List String) (i0 : Nat) (st : Shortcuts) (j : Nat), j < i0 →
      (foldFrom i0 st ls).byIdx.lookup j = st.byIdx.lookup j := by
  intro ls
  induction ls with
  | nil => intro i0 st j _; rfl
  | cons l ls ih =>
    intro i0 st j hj
    unfold foldFrom
    rw [ih (i0 + 1) _ j (by omega), addLabel_byIdx_lookup_ne st i0 l j (by omega)]

lemma specAssign_cons_some (claimed : List Char) (l : String) (ls : List String) (c : Char)
    (h : l.toList.find? (fun d => !(claimed.contains d)) = some c) :
    specAssign claimed (l :: ls) = some c :: specAssign (claimed ++ [c]) ls := by
  simp only [specAssign, h]

lemma specAssign_cons_none (claimed : List Char) (l : String) (ls : List String)
    (h : l.toList.find? (fun d => !(claimed.contains d)) = none) :
    specAssign claimed (l :: ls) = none :: specAssign claimed ls := by
  simp only [specAssign, h]

lemma foldFrom_assign :
    ∀ (ls : List String) (i0 : Nat) (st : Shortcuts),
      (∀ j, i0 ≤ j → st.byIdx.lookup j = none) →
      extractAssign (foldFrom i0 st ls) i0 ls =
        specAssign (st.byLetter.map Prod.fst) ls ∧
      extractHas (foldFrom i0 st ls) i0 ls =
        (specAssign (st.byLetter.map Prod.fst) ls).map Option.isSome := by
  intro ls
  induction ls with
  | nil => intro i0 st _; exact ⟨rfl, rfl⟩
  | cons l ls ih =>
    intro i0 st hfresh
    have hlk : (foldFrom (i0 + 1) (addLabel st i0 l) ls).byIdx.lookup i0 =
        (addLabel st i0 l).byIdx.lookup i0 :=
      foldFrom_byIdx_lookup_lt ls (i0 + 1) _ i0 (by omega)
    cases hff : firstFree st.byLetter l.toList 0 with
    | some kc =>
      obtain ⟨k, c⟩ := kc
      obtain ⟨hfind, _, hget⟩ := firstFree_some_spec l.toList st.byLetter 0 k c hff
      have hadd : addLabel st i0 l = ⟨st.byLetter ++ [(c, i0)], st.byIdx ++ [(i0, k)]⟩ := by
        unfold addLabel
        rw [hff]
      have hlk2 : (addLabel st i0 l).byIdx.lookup i0 = some k := by
        rw [hadd]
        dsimp only
        rw [lookup_append, hfresh i0 (le_refl i0)]
        simp [List.lookup]
      have hfresh' : ∀ j, i0 + 1 ≤ j → (addLabel st i0 l).byIdx.lookup j = none := by
        intro j hj
        rw [addLabel_byIdx_lookup_ne st i0 l j (by omega)]
        exact hfresh j (by omega)
      have hclaim : (addLabel st i0 l).byLetter.map Prod.fst =
          st.byLetter.map Prod.fst ++ [c] := by
        rw [hadd]
        simp
      obtain ⟨ih1, ih2⟩ := ih (i0 + 1) (addLabel st i0 l) hfresh'
      rw [hclaim] at ih1 ih2
      have hgetk : l.toList[k]? = some c := hget
      constructor
      · show ((foldFrom (i0 + 1) (addLabel st i0 l) ls).byIdx.lookup i0).bind
            (fun k => l.toList[k]?) ::
            extractAssign (foldFrom (i0 + 1) (addLabel st i0 l) ls) (i0 + 1) ls =
          specAssign (st.byLetter.map Prod.fst) (l :: ls)
        rw [specAssign_cons_some _ _ _ _ hfind, hlk, hlk2, ih1, Option.some_bind, hgetk]
      · show ((foldFrom (i0 + 1) (addLabel st i0 l) ls).byIdx.lookup i0).isSome ::
            extractHas (foldFrom (i0 + 1) (addLabel st i0 l) ls) (i0 + 1) ls =
          (specAssign (st.byLetter.map Prod.fst) (l :: ls)).map Option.isSome
        rw [specAssign_cons_some _ _ _ _ hfind, hlk, hlk2, ih2, List.map_cons]
        rfl
    | none =>
      have hfind := firstFree_none_spec l.toList st.byLetter 0 hff
      have hadd : addLabel st i0 l = st := by
        unfold addLabel
        rw [hff]
      have hlk2 : (addLabel st i0 l).byIdx.lookup i0 = none := by
        rw [hadd]
        exact hfresh i0 (le_refl i0)
      have hfresh' : ∀ j, i0 + 1 ≤ j → (addLabel st i0 l).byIdx.lookup j = none := by
        intro j hj
        rw [hadd]
        exact hfresh j (by omega)
      obtain ⟨ih1, ih2⟩ := ih (i0 + 1) (addLabel st i0 l) hfresh'
      rw [hadd] at ih1 ih2
      constructor
      · show ((foldFrom (i0 + 1) (addLabel st i0 l) ls).byIdx.lookup i0).bind
            (fun k => l.toList[k]?) ::
            extractAssign (foldFrom (i0 + 1) (addLabel st i0 l) ls) (i0 + 1) ls =
          specAssign (st.byLetter.map Prod.fst) (l :: ls)
        rw [specAssign_cons_none _ _ _ hfind, hlk, hlk2]
        rw [hadd]
        rw [ih1]
        rfl
      · show ((foldFrom (i0 + 1) (addLabel st i0 l) ls).byIdx.lookup i0).isSome ::
            extractHas (foldFrom (i0 + 1) (addLabel st i0 l) ls) (i0 + 1) ls =
          (specAssign (st.byLetter.map Prod.fst) (l :: ls)).map Option.isSome
        rw [specAssign_cons_none _ _ _ hfind, hlk, hlk2]
        rw [hadd]
        rw [ih2]
        rfl

lemma extractAssign_eq_range :
    ∀ (ls : List String) (st : Shortcuts) (i0 : Nat),
      (List.range ls.length).map (fun m =>
        (st.byIdx.lookup (i0 + m)).bind fun k => (ls[m]?).bind fun l => l.toList[k]?) =
      extractAssign st i0 ls := by
  intro ls
  induction ls with
  | nil => intro st i0; rfl
  | cons l ls ih =>
    intro st i0
    rw [List.length_cons, List.range_succ_eq_map, List.map_cons, List.map_map]
    unfold extractAssign
    congr 1
    · simp
    · rw [← ih st (i0 + 1)]
      apply List.map_congr_left
      intro m _
      have hidx : i0 + (m + 1) = i0 + 1 + m := by omega
      simp [Function.comp, hidx]

lemma extractHas_eq_range :
    ∀ (ls : List String) (st : Shortcuts) (i0 : Nat),
      (List.range ls.length).map (fun m => (st.byIdx.lookup (i0 + m)).isSome) =
      extractHas st i0 ls := by
  intro ls
  induction ls with
  | nil => intro st i0; rfl
  | cons l ls ih =>
    intro st i0
    rw [List.length_cons, List.range_succ_eq_map, List.map_cons, List.map_map]
    unfold extractHas
    congr 1
    · rw [← ih st (i0 + 1)]
      apply List.map_congr_left
      intro m _
      have hidx : i0 + (m + 1) = i0 + 1 + m := by omega
      simp [Function.comp, hidx]

/-! ## C5: the assignment rule, for every label list -/

/-- C5: for every directory listing, processed in sorted order, the
shortcut recorded for each label is exactly the first character of
that label not already claimed by an earlier label (`specAssign`, the
specification's rule), and a label whose characters are all claimed
gets no entry in the shortcut table at all. -/
theorem shortcut_assignment_matches_spec (dirnames : List String) :
    codeAssign (load_labels dirnames).1 (load_labels dirnames).2 =
      specAssign [] (load_labels dirnames).1 ∧
    (List.range (load_labels dirnames).1.length).map
        (fun i => ((load_labels dirnames).2.byIdx.lookup i).isSome) =
      (specAssign [] (load_labels dirnames).1).map Option.isSome := by
  obtain ⟨h1, h2⟩ := foldFrom_assign (pySort dirnames) 0 ⟨[], []⟩ (fun j _ => rfl)
  simp only [List.map_nil] at h1 h2
  have hr1 := extractAssign_eq_range (pySort dirnames)
    (foldFrom 0 ⟨[], []⟩ (pySort dirnames)) 0
  have hr2 := extractHas_eq_range (pySort dirnames)
    (foldFrom 0 ⟨[], []⟩ (pySort dirnames)) 0
  simp only [Nat.zero_add] at hr1 hr2
  constructor
  · show (List.range (pySort dirnames).length).map (fun i =>
        ((foldFrom 0 ⟨[], []⟩ (pySort dirnames)).byIdx.lookup i).bind fun k =>
          ((pySort dirnames)[i]?).bind fun l => l.toList[k]?) =
      specAssign [] (pySort dirnames)
    rw [hr1, h1]
  · show (List.range (pySort dirnames).length).map (fun i =>
        ((foldFrom 0 ⟨[], []⟩ (pySort dirnames)).byIdx.lookup i).isSome) =
      (specAssign [] (pySort dirnames)).map Option.isSome
    rw [hr2, h2]

/-! ## C6: shortcut letters are pairwise distinct -/

lemma foldFrom_nodup :
    ∀ (ls : List String) (i0 : Nat) (st : Shortcuts),
      (st.byLetter.map Prod.fst).Nodup →
      (st.byLetter.map Prod.snd).Nodup →
      (∀ v ∈ st.byLetter.map Prod.snd, v < i0) →
      (st.byIdx.map Prod.fst).Nodup →
      (∀ v ∈ st.byIdx.map Prod.fst, v < i0) →
      ((foldFrom i0 st ls).byLetter.map Prod.fst).Nodup ∧
      ((foldFrom i0 st ls).byLetter.map Prod.snd).Nodup ∧
      ((foldFrom i0 st ls).byIdx.map Prod.fst).Nodup := by
  intro ls
  induction ls with
  | nil => intro i0 st h1 h2 h3 h4 h5; exact ⟨h1, h2, h4⟩
  | cons l ls ih =>
    intro i0 st h1 h2 h3 h4 h5
    unfold foldFrom
    cases hff : firstFree st.byLetter l.toList 0 with
    | none =>
      have hadd : addLabel st i0 l = st := by
        unfold addLabel
        rw [hff]
      rw [hadd]
      exact ih (i0 + 1) st h1 h2 (fun v hv => by have := h3 v hv; omega) h4
        (fun v hv => by have := h5 v hv; omega)
    | some kc =>
      obtain ⟨k, c⟩ := kc
      have hadd : addLabel st i0 l = ⟨st.byLetter ++ [(c, i0)], st.byIdx ++ [(i0, k)]⟩ := by
        unfold addLabel
        rw [hff]
      have hcnot : c ∉ st.byLetter.map Prod.fst :=
        (lookup_none_iff st.byLetter c).mp
          (firstFree_some_lookup l.toList st.byLetter 0 k c hff)
      have hi0L : i0 ∉ st.byLetter.map Prod.snd := fun hv => absurd (h3 i0 hv) (by omega)
      have hi0I : i0 ∉ st.byIdx.map Prod.fst := fun hv => absurd (h5 i0 hv) (by omega)
      rw [hadd]
      apply ih (i0 + 1)
      · dsimp only
        rw [List.map_append]
        simp [List.nodup_append, h1, hcnot]
      · dsimp only
        rw [List.map_append]
        simp [List.nodup_append, h2, hi0L]
      · intro v hv
        dsimp only at hv
        rw [List.map_append] at hv
        rcases List.mem_append.mp hv with hv | hv
        · have := h3 v hv
          omega
        · simp at hv
          omega
      · dsimp only
        rw [List.map_append]
        simp [List.nodup_append, h4, hi0I]
      · intro v hv
        dsimp only at hv
        rw [List.map_append] at hv
        rcases List.mem_append.mp hv with hv | hv
        · have := h5 v hv
          omega
        · simp at hv
          omega

/-- C6: after `load_labels` the shortcut tables are injective in every
direction: no letter is recorded twice
(`keyboard_shortcuts_indexed_by_letter` has pairwise-distinct keys),
no two letters point at the same label, and every label has at most
one recorded shortcut position. -/
theorem shortcut_letters_distinct (dirnames : List String) :
    ((load_labels dirnames).2.byLetter.map Prod.fst).Nodup ∧
    ((load_labels dirnames).2.byLetter.map Prod.snd).Nodup ∧
    ((load_labels dirnames).2.byIdx.map Prod.fst).Nodup :=
  foldFrom_nodup (pySort dirnames) 0 ⟨[], []⟩ (by simp) (by simp)
    (fun v hv => by simp at hv) (by simp) (fun v hv => by simp at hv)

/-! ## C2: the spec's worked example contradicts the code -/

/-- C2 counterexample: on the label list `["cat","car","dog"]` the
code sorts first, so the letter `'c'` goes to `"car"` (sorted first),
not to `"cat"` as the claim states, and `"cat"` receives `'a'`. -/
theorem shortcut_example_as_claimed_is_false :
    shortcutOfLabel ["cat", "car", "dog"] "cat" = some 'a' ∧
    ¬shortcutOfLabel ["cat", "car", "dog"] "cat" = some 'c' ∧
    shortcutOfLabel ["cat", "car", "dog"] "car" = some 'c' := by
  decide

/-- C2 amended: the labels `["cat","car","dog"]` are sorted to
`["car","cat","dog"]` before assignment, whereupon `'c'` → `"car"`,
`'a'` → `"cat"` (because `'c'` is taken), and `'d'` → `"dog"`. -/
theorem shortcut_example_after_sorting :
    (load_labels ["cat", "car", "dog"]).1 = ["car", "cat", "dog"] ∧
    shortcutOfLabel ["cat", "car", "dog"] "car" = some 'c' ∧
    shortcutOfLabel ["cat", "car", "dog"] "cat" = some 'a' ∧
    shortcutOfLabel ["cat", "car", "dog"] "dog" = some 'd' := by
  decide
